import Mathlib

/-!
Verification of the item-location ('iloc') codec and the derived-image
writer of the HEIF container library.

The repository provides the class declarations (itemlocationbox.hpp,
metaderivedimagewriter.hpp); the member-function bodies are not part of the
visible sources, so they are modelled from the specification of the system
(wire layout of the 'iloc' box, item-management behaviour, error kinds and
derivation-graph resolution), while all value types and signatures follow
the headers: item IDs, data-reference indexes, item counts and extent
counts are 16-bit unsigned values, extent offsets/lengths/indexes and base
offsets are 64-bit unsigned values.  Machine integers are embedded as `Nat`
with explicit reduction `% 2 ^ w` wherever the C++ types would truncate.
-/

/-- Error kinds of the subsystem, as enumerated by the specification. -/
inductive ErrorKind where
  | DuplicateItem
  | ItemNotFound
  | UnresolvedReference
  | ArityMismatch
  | InvalidFieldWidth
  | ExtentCountOverflow
  deriving DecidableEq, Repr

/-! ## Bit-level stream primitives

The external bitstream collaborator offers `writeBits (value, nbits)` and a
symmetric read.  A stream is a list of bits, most significant bit of each
field first (big-endian, as the wire layout requires). -/

/-- `toBits n v` is the `n`-bit big-endian encoding of `v` (low `n` bits of
`v`, as the C++ `writeBits` primitive writes). -/
def toBits : Nat → Nat → List Bool
  | 0, _ => []
  | n + 1, v => (v / 2 ^ n % 2 == 1) :: toBits n v

/-- Symmetric read: consume `n` bits from the front of the stream, returning
the decoded value and the remaining stream, or `none` if the stream is too
short. -/
def readBits : Nat → List Bool → Option (Nat × List Bool)
  | 0, bs => some (0, bs)
  | _ + 1, [] => none
  | n + 1, b :: bs =>
      (readBits n bs).map (fun p => (b.toNat * 2 ^ n + p.1, p.2))

@[simp] theorem toBits_length (n v : Nat) : (toBits n v).length = n := by
  induction n generalizing v with
  | zero => rfl
  | succ n ih => simp [toBits, ih]

theorem readBits_append (n v : Nat) (rest : List Bool) :
    readBits n (toBits n v ++ rest) = some (v % 2 ^ n, rest) := by
  induction n generalizing v with
  | zero => simp [toBits, readBits, Nat.mod_one]
  | succ n ih =>
      have hb : ((v / 2 ^ n % 2 == 1) : Bool).toNat = v / 2 ^ n % 2 := by
        rcases Nat.mod_two_eq_zero_or_one (v / 2 ^ n) with h | h <;> simp [h]
      have hsplit : v % 2 ^ (n + 1) = v / 2 ^ n % 2 * 2 ^ n + v % 2 ^ n := by
        rw [pow_succ, Nat.mod_mul]; ring
      simp [toBits, readBits, ih, hb, hsplit]

/-! ## Data model (itemlocationbox.hpp) -/

/-- Construction method enumeration of `ItemLocation`. -/
inductive ConstructionMethod where
  | FILE_OFFSET
  | IDAT_OFFSET
  | ITEM_OFFSET
  deriving DecidableEq, Repr

/-- The 4-bit wire code of a construction method. -/
def ConstructionMethod.toNat : ConstructionMethod → Nat
  | .FILE_OFFSET => 0
  | .IDAT_OFFSET => 1
  | .ITEM_OFFSET => 2

/-- Modelled from the spec: decode of the 4-bit construction-method code; the
codes are 0, 1, 2 and the `ItemLocation` default (`FILE_OFFSET`) stands for
any reserved code. -/
def ConstructionMethod.fromCode (n : Nat) : ConstructionMethod :=
  if n = 1 then .IDAT_OFFSET else if n = 2 then .ITEM_OFFSET else .FILE_OFFSET

/-- `ItemLocationExtent`: one contiguous byte range (all fields `uint64_t`). -/
structure ItemLocationExtent where
  mExtentIndex : Nat := 0
  mExtentOffset : Nat := 0
  mExtentLength : Nat := 0
  deriving DecidableEq, Repr

/-- `ItemLocation`: one item's location entry.  `mItemID` and
`mDataReferenceIndex` are `uint16_t`, `mBaseOffset` is `uint64_t`. -/
structure ItemLocation where
  mItemID : Nat := 0
  mConstructionMethod : ConstructionMethod := .FILE_OFFSET
  mDataReferenceIndex : Nat := 0
  mBaseOffset : Nat := 0
  mExtentList : List ItemLocationExtent := []
  deriving DecidableEq, Repr

/-- `getExtentCount` returns the extent-list length as a `uint16_t`. -/
def ItemLocation.getExtentCount (loc : ItemLocation) : Nat :=
  loc.mExtentList.length % 65536

theorem ItemLocation.getExtentCount_eq (loc : ItemLocation) :
    loc.getExtentCount = loc.mExtentList.length % 65536 := rfl

/-- `ItemLocation::addExtent`: append-only, preserves insertion order. -/
def ItemLocation.addExtent (loc : ItemLocation) (extent : ItemLocationExtent) :
    ItemLocation :=
  { loc with mExtentList := loc.mExtentList ++ [extent] }

/-- `ItemLocationBox` ('iloc'): the four field-width parameters (each a
`uint8_t` meant to be 0, 4 or 8) and the ordered entry vector.  The FullBox
version is supplied by the (external) box header and is passed to the codec
functions explicitly. -/
structure ItemLocationBox where
  mOffsetSize : Nat := 4
  mLengthSize : Nat := 4
  mBaseOffsetSize : Nat := 4
  mIndexSize : Nat := 0
  mItemLocations : List ItemLocation := []
  deriving DecidableEq, Repr

/-- `findItem`: first entry whose `mItemID` equals the given 16-bit item ID
(the `itemId` argument is a `uint16_t`, hence the reduction). -/
def ItemLocationBox.findItem (box : ItemLocationBox) (itemId : Nat) :
    Option ItemLocation :=
  box.mItemLocations.find? (fun loc => loc.mItemID == itemId % 65536)

/-- `hasItemIdEntry`: true iff an entry with the item ID is present. -/
def ItemLocationBox.hasItemIdEntry (box : ItemLocationBox) (itemId : Nat) :
    Bool :=
  (box.findItem itemId).isSome

/-- Modelled from the spec: `addLocation` inserts a new entry, failing with
`ErrorKind::DuplicateItem` if the item ID already exists (the body of
`ItemLocationBox::addLocation` is not among the visible sources).  The
returned pair is the table after the call together with the error, if any. -/
def ItemLocationBox.addLocation (box : ItemLocationBox)
    (itemLoc : ItemLocation) : ItemLocationBox × Option ErrorKind :=
  if box.hasItemIdEntry itemLoc.mItemID then
    (box, some .DuplicateItem)
  else
    ({ box with mItemLocations := box.mItemLocations ++ [itemLoc] }, none)

/-- Modelled from the spec: `ItemLocationBox::addExtent` requires a
pre-existing entry (`ErrorKind::ItemNotFound` otherwise) and appends the
extent to it; exceeding the 16-bit extent-count format ceiling of 65535 is
`ErrorKind::ExtentCountOverflow` (the body is not among the visible
sources). -/
def ItemLocationBox.addExtent (box : ItemLocationBox) (itemId : Nat)
    (extent : ItemLocationExtent) : ItemLocationBox × Option ErrorKind :=
  match box.findItem itemId with
  | none => (box, some .ItemNotFound)
  | some loc =>
      if 65535 ≤ loc.mExtentList.length then
        (box, some .ExtentCountOverflow)
      else
        ({ box with
            mItemLocations := box.mItemLocations.map (fun l =>
              if l.mItemID == itemId % 65536 then l.addExtent extent else l) },
          none)

/-- Modelled from the spec: `setItemDataReferenceIndex` mutates an existing
entry in place and reports whether the item was found — it never creates. -/
def ItemLocationBox.setItemDataReferenceIndex (box : ItemLocationBox)
    (itemId : Nat) (dataReferenceIndex : Nat) : ItemLocationBox × Bool :=
  match box.findItem itemId with
  | none => (box, false)
  | some _ =>
      ({ box with
          mItemLocations := box.mItemLocations.map (fun l =>
            if l.mItemID == itemId % 65536 then
              { l with mDataReferenceIndex := dataReferenceIndex % 65536 }
            else l) },
        true)

/-- Modelled from the spec: `getItemLocationForID` fails (the header
documents a run-time exception, modelled as `none`) when no entry matches. -/
def ItemLocationBox.getItemLocationForID (box : ItemLocationBox)
    (itemID : Nat) : Option ItemLocation :=
  box.mItemLocations.find? (fun loc => loc.mItemID == itemID)

/-- `getItemCount` returns the number of entries as a `uint16_t`. -/
def ItemLocationBox.getItemCount (box : ItemLocationBox) : Nat :=
  box.mItemLocations.length % 65536

/-! ## The 'iloc' codec

Modelled from the spec: the bodies of `ItemLocation::write`,
`ItemLocationBox::writeBox` and `ItemLocationBox::parseBox` are not among
the visible sources; the wire layout below follows the specification
(big-endian, four 4-bit width nibbles first, version-dependent field
widths, width 0 meaning the field is entirely omitted). -/

/-- Modelled from the spec: serialization of one extent.  The
`extent_index` field (`index_size * 8` bits) is emitted only when the
version is 1 or 2 and the construction method is `ITEM_OFFSET`. -/
def ItemLocationExtent.write (version offsetSize lengthSize indexSize : Nat)
    (cm : ConstructionMethod) (e : ItemLocationExtent) : List Bool :=
  (if 1 ≤ version ∧ cm = .ITEM_OFFSET then toBits (8 * indexSize) e.mExtentIndex
   else [])
  ++ toBits (8 * offsetSize) e.mExtentOffset
  ++ toBits (8 * lengthSize) e.mExtentLength

/-- Modelled from the spec: `ItemLocation::write` — item ID (16 bits for
versions 0/1, 32 bits for version 2), construction method (12 reserved bits
plus a 4-bit code, versions 1/2 only), data-reference index (16 bits), base
offset (`base_offset_size * 8` bits), extent count (16 bits), extents. -/
def ItemLocation.write (version offsetSize lengthSize baseOffsetSize indexSize : Nat)
    (loc : ItemLocation) : List Bool :=
  toBits (if 2 ≤ version then 32 else 16) loc.mItemID
  ++ (if 1 ≤ version then toBits 16 loc.mConstructionMethod.toNat else [])
  ++ toBits 16 loc.mDataReferenceIndex
  ++ toBits (8 * baseOffsetSize) loc.mBaseOffset
  ++ toBits 16 loc.mExtentList.length
  ++ (loc.mExtentList.map
        (ItemLocationExtent.write version offsetSize lengthSize indexSize
          loc.mConstructionMethod)).flatten

/-- Modelled from the spec: `ItemLocationBox::writeBox` — the four width
nibbles (the index nibble is written as the reserved value 0 for version 0),
the item count (16 bits for versions 0/1, 32 bits for version 2), then each
entry in table order. -/
def ItemLocationBox.writeBox (version : Nat) (box : ItemLocationBox) :
    List Bool :=
  toBits 4 box.mOffsetSize ++ toBits 4 box.mLengthSize
  ++ toBits 4 box.mBaseOffsetSize
  ++ toBits 4 (if 1 ≤ version then box.mIndexSize else 0)
  ++ toBits (if 2 ≤ version then 32 else 16) box.mItemLocations.length
  ++ (box.mItemLocations.map
       (ItemLocation.write version box.mOffsetSize box.mLengthSize
         box.mBaseOffsetSize box.mIndexSize)).flatten

/-- A legal field-width value: 0, 4 or 8 bytes. -/
def validWidth (n : Nat) : Prop := n = 0 ∨ n = 4 ∨ n = 8

instance (n : Nat) : Decidable (validWidth n) := by
  unfold validWidth; infer_instance

/-- Modelled from the spec: decode of one extent, mirroring
`ItemLocationExtent.write`; a field of width 0 is absent and decodes to 0. -/
def readExtent (version offsetSize lengthSize indexSize : Nat)
    (cm : ConstructionMethod) (bs : List Bool) :
    Option (ItemLocationExtent × List Bool) := do
  let (idx, bs) ← if 1 ≤ version ∧ cm = .ITEM_OFFSET then
      readBits (8 * indexSize) bs
    else some (0, bs)
  let (off, bs) ← readBits (8 * offsetSize) bs
  let (len, bs) ← readBits (8 * lengthSize) bs
  some (⟨idx, off, len⟩, bs)

/-- Modelled from the spec: decode of a counted extent run. -/
def readExtents (version offsetSize lengthSize indexSize : Nat)
    (cm : ConstructionMethod) :
    Nat → List Bool → Option (List ItemLocationExtent × List Bool)
  | 0, bs => some ([], bs)
  | n + 1, bs => do
      let (e, bs) ← readExtent version offsetSize lengthSize indexSize cm bs
      let (es, bs) ← readExtents version offsetSize lengthSize indexSize cm n bs
      some (e :: es, bs)

/-- Modelled from the spec: decode of one item-location entry, mirroring
`ItemLocation.write`.  The decoded item ID is stored in the `uint16_t`
member, hence the reduction; version 0 carries no construction-method field
and the entry gets the default `FILE_OFFSET`. -/
def readLocation (version offsetSize lengthSize baseOffsetSize indexSize : Nat)
    (bs : List Bool) : Option (ItemLocation × List Bool) := do
  let (rawId, bs) ← readBits (if 2 ≤ version then 32 else 16) bs
  let (cm, bs) ← if 1 ≤ version then
      (readBits 16 bs).map
        (fun p => (ConstructionMethod.fromCode (p.1 % 16), p.2))
    else some (ConstructionMethod.FILE_OFFSET, bs)
  let (dri, bs) ← readBits 16 bs
  let (baseOff, bs) ← readBits (8 * baseOffsetSize) bs
  let (extentCount, bs) ← readBits 16 bs
  let (extents, bs) ←
    readExtents version offsetSize lengthSize indexSize cm extentCount bs
  some ({ mItemID := rawId % 65536, mConstructionMethod := cm,
          mDataReferenceIndex := dri, mBaseOffset := baseOff,
          mExtentList := extents }, bs)

/-- Modelled from the spec: decode of a counted entry run. -/
def readLocations (version offsetSize lengthSize baseOffsetSize indexSize : Nat) :
    Nat → List Bool → Option (List ItemLocation × List Bool)
  | 0, bs => some ([], bs)
  | n + 1, bs => do
      let (loc, bs) ←
        readLocation version offsetSize lengthSize baseOffsetSize indexSize bs
      let (locs, bs) ←
        readLocations version offsetSize lengthSize baseOffsetSize indexSize n bs
      some (loc :: locs, bs)

/-- Decode failure: either the external bitstream ran out of data, or one of
the subsystem's error kinds was raised. -/
inductive ParseError where
  | badStream
  | kind (k : ErrorKind)
  deriving DecidableEq, Repr

/-- Modelled from the spec: `ItemLocationBox::parseBox` — read the four
width nibbles, reject any width code outside {0,4,8} with
`ErrorKind::InvalidFieldWidth` before constructing any entry, then read the
version-dependent item count and that many entries. -/
def ItemLocationBox.parseBox (version : Nat) (bs : List Bool) :
    Except ParseError ItemLocationBox :=
  match (do
      let (offsetSize, bs) ← readBits 4 bs
      let (lengthSize, bs) ← readBits 4 bs
      let (baseOffsetSize, bs) ← readBits 4 bs
      let (indexSize, bs) ← readBits 4 bs
      some (offsetSize, lengthSize, baseOffsetSize, indexSize, bs) :
      Option (Nat × Nat × Nat × Nat × List Bool)) with
  | none => .error .badStream
  | some (offsetSize, lengthSize, baseOffsetSize, indexSize, bs) =>
      if validWidth offsetSize ∧ validWidth lengthSize ∧
          validWidth baseOffsetSize ∧ validWidth indexSize then
        match (do
            let (count, bs) ← readBits (if 2 ≤ version then 32 else 16) bs
            let (locs, _) ←
              readLocations version offsetSize lengthSize baseOffsetSize
                indexSize count bs
            some locs : Option (List ItemLocation)) with
        | none => .error .badStream
        | some locs =>
            .ok { mOffsetSize := offsetSize, mLengthSize := lengthSize,
                  mBaseOffsetSize := baseOffsetSize, mIndexSize := indexSize,
                  mItemLocations := locs }
      else .error (.kind .InvalidFieldWidth)

/-! ## Claims about item management (C2, C3, C10) -/

/-- C2: `addLocation` with an already-present item ID fails with
`DuplicateItem` and leaves the number of entries unchanged. -/
theorem claim_C2_addLocation_duplicate (box : ItemLocationBox)
    (itemLoc : ItemLocation)
    (h : box.hasItemIdEntry itemLoc.mItemID = true) :
    box.addLocation itemLoc = (box, some ErrorKind.DuplicateItem) ∧
    (box.addLocation itemLoc).1.mItemLocations.length =
      box.mItemLocations.length := by
  simp [ItemLocationBox.addLocation, h]

/-- A concrete table with a single entry, item ID 7. -/
def sampleBox7 : ItemLocationBox :=
  { mItemLocations := [{ mItemID := 7, mBaseOffset := 11 }] }

theorem claim_C2_witness :
    sampleBox7.addLocation { mItemID := 7 } =
      (sampleBox7, some ErrorKind.DuplicateItem) ∧
    (sampleBox7.addLocation { mItemID := 7 }).1.mItemLocations.length =
      sampleBox7.mItemLocations.length :=
  claim_C2_addLocation_duplicate sampleBox7 { mItemID := 7 } (by decide)

/-- C3 (amended): `addExtent` on an existing entry that holds fewer than
65535 extents appends the new extent last (prior extents keep their order)
and raises `getExtentCount` by exactly 1; on an existing entry already at
the 65535-extent format ceiling it fails with `ExtentCountOverflow` and
changes nothing; on a missing item it fails with `ItemNotFound` and changes
nothing. -/
theorem claim_C3_addExtent (box : ItemLocationBox) (itemId : Nat)
    (extent : ItemLocationExtent) :
    (∀ loc : ItemLocation, box.findItem itemId = some loc →
      (loc.mExtentList.length < 65535 →
      (box.addExtent itemId extent).2 = none ∧
      (box.addExtent itemId extent).1.findItem itemId =
        some { loc with mExtentList := loc.mExtentList ++ [extent] } ∧
      ((box.addExtent itemId extent).1.findItem itemId).map
          ItemLocation.getExtentCount = some (loc.getExtentCount + 1)) ∧
      (65535 ≤ loc.mExtentList.length →
        box.addExtent itemId extent =
          (box, some ErrorKind.ExtentCountOverflow))) ∧
    (box.findItem itemId = none →
      box.addExtent itemId extent = (box, some ErrorKind.ItemNotFound)) := by
  refine ⟨fun loc hfind => ?_, fun hnone => by
    simp [ItemLocationBox.addExtent, hnone]⟩
  have hfind' : List.find?
      (fun l : ItemLocation => l.mItemID == itemId % 65536)
      box.mItemLocations = some loc := hfind
  have hpred := List.find?_some hfind'
  constructor
  · intro hlen
    have hnot : ¬ (65535 ≤ loc.mExtentList.length) := by omega
    have hmap : (box.addExtent itemId extent).1.findItem itemId =
        some { loc with mExtentList := loc.mExtentList ++ [extent] } := by
      simp only [ItemLocationBox.addExtent, hfind, hnot, if_false]
      unfold ItemLocationBox.findItem
      simp only [List.find?_map]
      have hcomp : ((fun l : ItemLocation => l.mItemID == itemId % 65536) ∘
          (fun l : ItemLocation =>
            if l.mItemID == itemId % 65536 then l.addExtent extent else l)) =
          (fun l : ItemLocation => l.mItemID == itemId % 65536) := by
        funext l
        by_cases hl : l.mItemID = itemId % 65536 <;>
          simp [Function.comp, hl, ItemLocation.addExtent]
      rw [hcomp, hfind']
      have hpredeq : loc.mItemID = itemId % 65536 := by simpa using hpred
      simp [ItemLocation.addExtent, hpredeq]
    refine ⟨?_, hmap, ?_⟩
    · simp [ItemLocationBox.addExtent, hfind, hnot]
    · rw [hmap]
      have h1 : loc.mExtentList.length % 65536 = loc.mExtentList.length :=
        Nat.mod_eq_of_lt (by omega)
      have h2 : (loc.mExtentList.length + 1) % 65536 =
          loc.mExtentList.length + 1 := Nat.mod_eq_of_lt (by omega)
      simp [ItemLocation.getExtentCount, h1, h2]
  · intro hlen
    simp [ItemLocationBox.addExtent, hfind, hlen]

/-- An entry already holding the format ceiling of 65535 extents. -/
def ceilingLoc : ItemLocation :=
  { mItemID := 1, mExtentList := List.replicate 65535 {} }

/-- A table containing `ceilingLoc` only. -/
def ceilingBox : ItemLocationBox := { mItemLocations := [ceilingLoc] }

/-- C3 counterexample: the item exists, yet `addExtent` does not raise the
extent count by 1 — it fails with `ExtentCountOverflow` and leaves the
entry's 65535 extents as they were. -/
theorem claim_C3_counterexample :
    ceilingBox.hasItemIdEntry 1 = true ∧
    ceilingBox.addExtent 1 {} = (ceilingBox, some ErrorKind.ExtentCountOverflow) ∧
    ((ceilingBox.addExtent 1 {}).1.findItem 1).map ItemLocation.getExtentCount
      = some 65535 := by
  have hlist : ceilingLoc.mExtentList = List.replicate 65535 {} := rfl
  have hlenc : ceilingLoc.mExtentList.length = 65535 := by
    rw [hlist, List.length_replicate]
  have hfind : ceilingBox.findItem 1 = some ceilingLoc :=
    List.find?_cons_of_pos [] (by decide)
  have hlen : 65535 ≤ ceilingLoc.mExtentList.length := by
    rw [hlenc]
  have hcall : ceilingBox.addExtent 1 {} =
      (ceilingBox, some ErrorKind.ExtentCountOverflow) := by
    simp only [ItemLocationBox.addExtent, hfind, if_pos hlen]
  refine ⟨?_, hcall, ?_⟩
  · simp [ItemLocationBox.hasItemIdEntry, hfind]
  · simp only [hcall]
    rw [hfind]
    simp only [Option.map_some']
    rw [ItemLocation.getExtentCount_eq, hlenc]

theorem claim_C3_witness :
    ((sampleBox7.addExtent 7 { mExtentOffset := 2 }).2 = none ∧
      (sampleBox7.addExtent 7 { mExtentOffset := 2 }).1.findItem 7 =
        some { mItemID := 7, mBaseOffset := 11,
               mExtentList := [{ mExtentOffset := 2 }] } ∧
      ((sampleBox7.addExtent 7 { mExtentOffset := 2 }).1.findItem 7).map
          ItemLocation.getExtentCount = some 1) ∧
    sampleBox7.addExtent 3 {} = (sampleBox7, some ErrorKind.ItemNotFound) := by
  constructor
  · exact ((claim_C3_addExtent sampleBox7 7 { mExtentOffset := 2 }).1
      { mItemID := 7, mBaseOffset := 11 } (by decide)).1 (by decide)
  · exact (claim_C3_addExtent sampleBox7 3 {}).2 (by decide)

/-- C10: `hasItemIdEntry`, `getItemLocationForID` and
`setItemDataReferenceIndex` agree for every 16-bit item ID, because all
three consult the same lookup over the entry sequence. -/
theorem claim_C10_lookup_consistency (box : ItemLocationBox)
    (itemId dri : Nat) (h : itemId < 65536) :
    (box.hasItemIdEntry itemId = true ↔
      ∃ loc ∈ box.mItemLocations, loc.mItemID = itemId) ∧
    (box.hasItemIdEntry itemId = true ↔
      (box.getItemLocationForID itemId).isSome = true) ∧
    (box.hasItemIdEntry itemId = true ↔
      (box.setItemDataReferenceIndex itemId dri).2 = true) := by
  have hmod : itemId % 65536 = itemId := Nat.mod_eq_of_lt (by omega)
  have hsame : box.findItem itemId = box.getItemLocationForID itemId := by
    simp [ItemLocationBox.findItem, ItemLocationBox.getItemLocationForID, hmod]
  refine ⟨?_, ?_, ?_⟩
  · simp [ItemLocationBox.hasItemIdEntry, ItemLocationBox.findItem,
      List.find?_isSome, hmod]
  · simp [ItemLocationBox.hasItemIdEntry, hsame]
  · unfold ItemLocationBox.hasItemIdEntry ItemLocationBox.setItemDataReferenceIndex
    rcases hfind : box.findItem itemId with _ | loc <;> simp [hfind]

theorem claim_C10_witness :
    (sampleBox7.hasItemIdEntry 7 = true ↔
      ∃ loc ∈ sampleBox7.mItemLocations, loc.mItemID = 7) ∧
    (sampleBox7.hasItemIdEntry 7 = true ↔
      (sampleBox7.getItemLocationForID 7).isSome = true) ∧
    (sampleBox7.hasItemIdEntry 7 = true ↔
      (sampleBox7.setItemDataReferenceIndex 7 3).2 = true) :=
  claim_C10_lookup_consistency sampleBox7 7 3 (by decide)

/-! ## Claims about the decoder (C4, C5) -/

/-- C4: a stream whose four width nibbles decode but contain a code outside
{0,4,8} is rejected with `InvalidFieldWidth` before any entry is
constructed. -/
theorem claim_C4_invalid_width (version : Nat) (bs bs1 bs2 bs3 bs4 : List Bool)
    (n0 n1 n2 n3 : Nat)
    (h0 : readBits 4 bs = some (n0, bs1))
    (h1 : readBits 4 bs1 = some (n1, bs2))
    (h2 : readBits 4 bs2 = some (n2, bs3))
    (h3 : readBits 4 bs3 = some (n3, bs4))
    (hbad : ¬ (validWidth n0 ∧ validWidth n1 ∧ validWidth n2 ∧ validWidth n3)) :
    ItemLocationBox.parseBox version bs =
      Except.error (ParseError.kind ErrorKind.InvalidFieldWidth) := by
  unfold ItemLocationBox.parseBox
  simp [h0, h1, h2, h3, hbad]

/-- A 16-bit stream declaring the reserved offset-size code 15. -/
def badWidthStream : List Bool :=
  [true, true, true, true, false, false, false, false,
   false, false, false, false, false, false, false, false]

theorem claim_C4_witness :
    ItemLocationBox.parseBox 1 badWidthStream =
      Except.error (ParseError.kind ErrorKind.InvalidFieldWidth) :=
  claim_C4_invalid_width 1 badWidthStream
    [false, false, false, false, false, false, false, false, false, false,
     false, false]
    [false, false, false, false, false, false, false, false]
    [false, false, false, false] [] 15 0 0 0
    (by decide) (by decide) (by decide) (by decide) (by decide)

theorem readLocation_baseOffset_zero (version offsetSize lengthSize indexSize :
    Nat) (bs : List Bool) (loc : ItemLocation) (rest : List Bool)
    (h : readLocation version offsetSize lengthSize 0 indexSize bs =
      some (loc, rest)) : loc.mBaseOffset = 0 := by
  unfold readLocation at h
  by_cases hv : 1 ≤ version
  · simp only [hv, if_true, Nat.mul_zero, readBits, Option.bind_eq_bind,
      Option.bind_eq_some, Option.map_eq_some', Option.some.injEq] at h
    obtain ⟨⟨rawId, bs1⟩, h1, ⟨cm, bs2⟩, ⟨⟨c0, cbs⟩, hc0, hcm⟩,
      ⟨dri, bs3⟩, h3, ⟨bOff, bs4⟩, h4, ⟨cnt, bs5⟩, h5,
      ⟨exts, bs6⟩, h6, hfin⟩ := h
    obtain ⟨hb, -⟩ : 0 = bOff ∧ bs3 = bs4 := by
      simpa [Prod.ext_iff] using h4
    obtain ⟨hloc, -⟩ : _ = loc ∧ _ = rest := by
      simpa [Prod.ext_iff] using hfin
    rw [← hloc]
    exact hb.symm
  · simp only [hv, if_false, Nat.mul_zero, readBits, Option.bind_eq_bind,
      Option.bind_eq_some, Option.some.injEq] at h
    obtain ⟨⟨rawId, bs1⟩, h1, ⟨cm, bs2⟩, hcm,
      ⟨dri, bs3⟩, h3, ⟨bOff, bs4⟩, h4, ⟨cnt, bs5⟩, h5,
      ⟨exts, bs6⟩, h6, hfin⟩ := h
    obtain ⟨hb, -⟩ : 0 = bOff ∧ bs3 = bs4 := by
      simpa [Prod.ext_iff] using h4
    obtain ⟨hloc, -⟩ : _ = loc ∧ _ = rest := by
      simpa [Prod.ext_iff] using hfin
    rw [← hloc]
    exact hb.symm

theorem readLocations_baseOffset_zero (version offsetSize lengthSize indexSize :
    Nat) (count : Nat) (bs : List Bool) (locs : List ItemLocation)
    (rest : List Bool)
    (h : readLocations version offsetSize lengthSize 0 indexSize count bs =
      some (locs, rest)) : ∀ loc ∈ locs, loc.mBaseOffset = 0 := by
  induction count generalizing bs locs rest with
  | zero =>
      unfold readLocations at h
      simp only [Option.some.injEq, Prod.ext_iff] at h
      obtain ⟨hl, -⟩ := h
      intro loc hmem
      rw [← hl] at hmem
      simp at hmem
  | succ n ih =>
      unfold readLocations at h
      simp only [Option.bind_eq_bind, Option.bind_eq_some,
        Option.some.injEq] at h
      obtain ⟨⟨loc0, bs1⟩, h1, ⟨locs1, bs2⟩, h2, hfin⟩ := h
      obtain ⟨hl, -⟩ : loc0 :: locs1 = locs ∧ bs2 = rest := by
        simpa [Prod.ext_iff] using hfin
      intro loc hmem
      rw [← hl] at hmem
      rcases List.mem_cons.mp hmem with rfl | hmem1
      · exact readLocation_baseOffset_zero version offsetSize lengthSize
          indexSize bs loc bs1 h1
      · exact ih bs1 locs1 bs2 h2 loc hmem1

/-- C5: if the decoded base-offset-size nibble is 0 then every decoded entry
has base offset 0 — a width of 0 means the field is absent from the stream,
not read from adjacent bytes. -/
theorem claim_C5_base_offset_absent (version : Nat) (bs : List Bool)
    (box : ItemLocationBox)
    (hok : ItemLocationBox.parseBox version bs = Except.ok box)
    (hzero : box.mBaseOffsetSize = 0) :
    ∀ loc ∈ box.mItemLocations, loc.mBaseOffset = 0 := by
  unfold ItemLocationBox.parseBox at hok
  split at hok
  · simp at hok
  next o l b i bs2 heq =>
    split at hok
    · split at hok
      · simp at hok
      next locs heq2 =>
        rw [Except.ok.injEq] at hok
        subst hok
        simp only at hzero
        subst hzero
        simp only [Option.bind_eq_bind, Option.bind_eq_some,
          Option.some.injEq] at heq2
        obtain ⟨⟨count, bs3⟩, hc, ⟨locs2, bs4⟩, hl, hfin⟩ := heq2
        subst hfin
        exact readLocations_baseOffset_zero version o l i count bs3 locs2
          bs4 hl
    · simp at hok

/-- A version-0 stream with all width nibbles 0: one entry, item ID 5,
data-reference index 7, no base offset, no extents. -/
def c5Stream : List Bool :=
  toBits 4 0 ++ toBits 4 0 ++ toBits 4 0 ++ toBits 4 0 ++ toBits 16 1 ++
  toBits 16 5 ++ toBits 16 7 ++ toBits 16 0

/-- The table decoded from `c5Stream`. -/
def c5Box : ItemLocationBox :=
  { mOffsetSize := 0, mLengthSize := 0, mBaseOffsetSize := 0, mIndexSize := 0,
    mItemLocations := [{ mItemID := 5, mDataReferenceIndex := 7 }] }

theorem claim_C5_witness :
    ItemLocation.mBaseOffset { mItemID := 5, mDataReferenceIndex := 7 } = 0 :=
  claim_C5_base_offset_absent 0 c5Stream c5Box rfl rfl
    { mItemID := 5, mDataReferenceIndex := 7 } (by simp [c5Box])

/-! ## Claims about field widths on the wire (C6, C7) -/

theorem extent_write_length (version offsetSize lengthSize indexSize : Nat)
    (cm : ConstructionMethod) (e : ItemLocationExtent) :
    (ItemLocationExtent.write version offsetSize lengthSize indexSize cm
      e).length =
      (if 1 ≤ version ∧ cm = ConstructionMethod.ITEM_OFFSET then
        8 * indexSize else 0) + 8 * offsetSize + 8 * lengthSize := by
  unfold ItemLocationExtent.write
  by_cases h : 1 ≤ version ∧ cm = ConstructionMethod.ITEM_OFFSET
  · simp [h]
    ring
  · simp [h]

theorem location_write_length (version offsetSize lengthSize baseOffsetSize
    indexSize : Nat) (loc : ItemLocation) :
    (ItemLocation.write version offsetSize lengthSize baseOffsetSize indexSize
      loc).length =
      (if 2 ≤ version then 32 else 16) + (if 1 ≤ version then 16 else 0) +
      16 + 8 * baseOffsetSize + 16 +
      loc.mExtentList.length * (8 * offsetSize + 8 * lengthSize) +
      (if 1 ≤ version ∧ loc.mConstructionMethod =
          ConstructionMethod.ITEM_OFFSET then
        loc.mExtentList.length * (8 * indexSize) else 0) := by
  have hsum : ∀ (c : ConstructionMethod) (l : List ItemLocationExtent),
      (l.map (List.length ∘ ItemLocationExtent.write version offsetSize
        lengthSize indexSize c)).sum =
      l.length * ((if 1 ≤ version ∧ c = ConstructionMethod.ITEM_OFFSET then
        8 * indexSize else 0) + 8 * offsetSize + 8 * lengthSize) := by
    intro c l
    induction l with
    | nil => simp
    | cons e t ih =>
        simp only [List.map_cons, List.sum_cons, Function.comp_apply,
          extent_write_length, ih, List.length_cons]
        ring
  unfold ItemLocation.write
  by_cases hv1 : 1 ≤ version
  · by_cases hv2 : 2 ≤ version <;>
      by_cases hg : loc.mConstructionMethod = ConstructionMethod.ITEM_OFFSET <;>
      simp [hv1, hv2, hg, List.length_flatten, List.map_map, hsum] <;> ring
  · have hv2 : ¬ 2 ≤ version := by omega
    simp [hv1, hv2, List.length_flatten, List.map_map, hsum]
    ring

/-- C7: the `extent_index` field contributes `8 * indexSize` bits per extent
to a serialized entry exactly when the version is 1 or 2 and the entry's
construction method is `ITEM_OFFSET`; otherwise no extent-index bits appear
— the output is even independent of the extents' index values. -/
theorem claim_C7_extent_index_gate (version offsetSize lengthSize
    baseOffsetSize indexSize : Nat) (loc : ItemLocation) :
    ((ItemLocation.write version offsetSize lengthSize baseOffsetSize
        indexSize loc).length =
      (if 2 ≤ version then 32 else 16) + (if 1 ≤ version then 16 else 0) +
      16 + 8 * baseOffsetSize + 16 +
      loc.mExtentList.length * (8 * offsetSize + 8 * lengthSize) +
      (if 1 ≤ version ∧ loc.mConstructionMethod =
          ConstructionMethod.ITEM_OFFSET then
        loc.mExtentList.length * (8 * indexSize) else 0)) ∧
    (¬ (1 ≤ version ∧ loc.mConstructionMethod =
        ConstructionMethod.ITEM_OFFSET) →
      ItemLocation.write version offsetSize lengthSize baseOffsetSize indexSize
        { loc with mExtentList :=
            loc.mExtentList.map (fun e => { e with mExtentIndex := 0 }) } =
      ItemLocation.write version offsetSize lengthSize baseOffsetSize indexSize
        loc) := by
  constructor
  · exact location_write_length version offsetSize lengthSize baseOffsetSize
      indexSize loc
  · intro h
    have hext : ∀ e : ItemLocationExtent,
        ItemLocationExtent.write version offsetSize lengthSize indexSize
          loc.mConstructionMethod { e with mExtentIndex := 0 } =
        ItemLocationExtent.write version offsetSize lengthSize indexSize
          loc.mConstructionMethod e := by
      intro e
      unfold ItemLocationExtent.write
      rw [if_neg h, if_neg h]
    have hmap : List.map (ItemLocationExtent.write version offsetSize
        lengthSize indexSize loc.mConstructionMethod ∘ fun e =>
          { mExtentIndex := 0, mExtentOffset := e.mExtentOffset,
            mExtentLength := e.mExtentLength }) loc.mExtentList =
        List.map (ItemLocationExtent.write version offsetSize lengthSize
          indexSize loc.mConstructionMethod) loc.mExtentList :=
      List.map_congr_left fun e _ => hext e
    simp only [ItemLocation.write, List.map_map, List.length_map, hmap]

theorem claim_C7_witness :
    ItemLocation.write 0 4 4 8 8
      { mItemID := 1,
        mExtentList := [{ mExtentIndex := 0, mExtentOffset := 2,
                          mExtentLength := 3 }] } =
    ItemLocation.write 0 4 4 8 8
      { mItemID := 1,
        mExtentList := [{ mExtentIndex := 9, mExtentOffset := 2,
                          mExtentLength := 3 }] } := by
  have h := (claim_C7_extent_index_gate 0 4 4 8 8
    { mItemID := 1,
      mExtentList := [{ mExtentIndex := 9, mExtentOffset := 2,
                        mExtentLength := 3 }] }).2 (by decide)
  simpa using h

theorem readLocation_itemID_lt (version offsetSize lengthSize baseOffsetSize
    indexSize : Nat) (bs : List Bool) (loc : ItemLocation) (rest : List Bool)
    (h : readLocation version offsetSize lengthSize baseOffsetSize indexSize
      bs = some (loc, rest)) : loc.mItemID < 65536 := by
  unfold readLocation at h
  by_cases hv : 1 ≤ version
  · simp only [hv, if_true, Option.bind_eq_bind, Option.bind_eq_some,
      Option.map_eq_some', Option.some.injEq] at h
    obtain ⟨⟨rawId, bs1⟩, h1, ⟨cm, bs2⟩, ⟨⟨c0, cbs⟩, hc0, hcm⟩,
      ⟨dri, bs3⟩, h3, ⟨bOff, bs4⟩, h4, ⟨cnt, bs5⟩, h5,
      ⟨exts, bs6⟩, h6, hfin⟩ := h
    obtain ⟨hloc, -⟩ : _ = loc ∧ _ = rest := by
      simpa [Prod.ext_iff] using hfin
    rw [← hloc]
    exact Nat.mod_lt _ (by norm_num)
  · simp only [hv, if_false, Option.bind_eq_bind, Option.bind_eq_some,
      Option.some.injEq] at h
    obtain ⟨⟨rawId, bs1⟩, h1, ⟨cm, bs2⟩, hcm,
      ⟨dri, bs3⟩, h3, ⟨bOff, bs4⟩, h4, ⟨cnt, bs5⟩, h5,
      ⟨exts, bs6⟩, h6, hfin⟩ := h
    obtain ⟨hloc, -⟩ : _ = loc ∧ _ = rest := by
      simpa [Prod.ext_iff] using hfin
    rw [← hloc]
    exact Nat.mod_lt _ (by norm_num)

theorem readLocations_itemID_lt (version offsetSize lengthSize baseOffsetSize
    indexSize : Nat) (count : Nat) (bs : List Bool) (locs : List ItemLocation)
    (rest : List Bool)
    (h : readLocations version offsetSize lengthSize baseOffsetSize indexSize
      count bs = some (locs, rest)) : ∀ loc ∈ locs, loc.mItemID < 65536 := by
  induction count generalizing bs locs rest with
  | zero =>
      unfold readLocations at h
      simp only [Option.some.injEq, Prod.ext_iff] at h
      obtain ⟨hl, -⟩ := h
      intro loc hmem
      rw [← hl] at hmem
      simp at hmem
  | succ n ih =>
      unfold readLocations at h
      simp only [Option.bind_eq_bind, Option.bind_eq_some,
        Option.some.injEq] at h
      obtain ⟨⟨loc0, bs1⟩, h1, ⟨locs1, bs2⟩, h2, hfin⟩ := h
      obtain ⟨hl, -⟩ : loc0 :: locs1 = locs ∧ bs2 = rest := by
        simpa [Prod.ext_iff] using hfin
      intro loc hmem
      rw [← hl] at hmem
      rcases List.mem_cons.mp hmem with rfl | hmem1
      · exact readLocation_itemID_lt version offsetSize lengthSize
          baseOffsetSize indexSize bs loc bs1 h1
      · exact ih bs1 locs1 bs2 h2 loc hmem1

/-- A version-2 stream: zero field widths, one entry whose 32-bit item_ID
field holds 70000, which does not fit in 16 bits. -/
def c6Stream : List Bool :=
  toBits 4 0 ++ toBits 4 0 ++ toBits 4 0 ++ toBits 4 0 ++ toBits 32 1 ++
  toBits 32 70000 ++ toBits 16 0 ++ toBits 16 0 ++ toBits 16 0

/-- The table decoded from `c6Stream`: the stored item ID is 70000 mod 2^16
= 4464, not 70000. -/
def c6ParsedBox : ItemLocationBox :=
  { mOffsetSize := 0, mLengthSize := 0, mBaseOffsetSize := 0, mIndexSize := 0,
    mItemLocations := [{ mItemID := 4464 }] }

/-- C6 counterexample: decoding a version-2 stream whose item_ID field holds
70000 yields a table whose entry has item ID 4464 — the table cannot carry
an item ID that does not fit in 16 bits. -/
theorem claim_C6_counterexample :
    (ItemLocationBox.parseBox 2 c6Stream).toOption.map
      (fun b => b.mItemLocations.map ItemLocation.mItemID) = some [4464] ∧
    (4464 : Nat) ≠ 70000 := by
  constructor
  · rfl
  · decide

/-! ## Derived-image writer (metaderivedimagewriter.hpp): C8, C9

The writer's member-function bodies are not among the visible sources; the
operations below are modelled from the specification, with the type
declarations following the header (`ReferenceToItemIdMap` maps a uniq_bsid
context to the item IDs allocated for that context's images, consulted with
a 1-based image index). -/

/-- The reference index built by `createReferenceToItemIdMap`. -/
abbrev ReferenceToItemIdMap := List (Nat × List Nat)

/-- Modelled from the spec: resolve one symbolic (context, 1-based index)
pair through the reference index; `none` is a resolution miss. -/
def resolveReference (m : ReferenceToItemIdMap) (ctx idx : Nat) : Option Nat :=
  match m.lookup ctx with
  | none => none
  | some ids => ids[idx - 1]?

/-- `DerivationInfo` (metaderivedimagewriter.hpp): symbolic references from
the configuration together with the writer-assigned item IDs. -/
structure DerivationInfo where
  uniqBsid : Nat := 0
  refsList : List Nat := []
  indexList : List Nat := []
  itemIds : List Nat := []
  referenceItemIds : List Nat := []
  type : String := ""
  deriving DecidableEq, Repr

/-- Modelled from the spec: resolve a list of symbolic pairs in order; any
miss fails the whole list. -/
def resolvePairs (m : ReferenceToItemIdMap) :
    List (Nat × Nat) → Option (List Nat)
  | [] => some []
  | p :: ps =>
      match resolveReference m p.1 p.2, resolvePairs m ps with
      | some i, some is => some (i :: is)
      | _, _ => none

/-- Modelled from the spec: `addItemIdReferences` — for every DerivationInfo
resolve each (refsList[i], indexList[i]) pair through the reference index
into `referenceItemIds`; a resolution miss aborts the whole pass with
`ErrorKind::UnresolvedReference` and no partial result is produced. -/
def addItemIdReferences (m : ReferenceToItemIdMap) :
    List DerivationInfo → Except ErrorKind (List DerivationInfo)
  | [] => .ok []
  | d :: ds =>
      match resolvePairs m (d.refsList.zip d.indexList) with
      | none => .error .UnresolvedReference
      | some ids =>
          match addItemIdReferences m ds with
          | .error e => .error e
          | .ok rest => .ok ({ d with referenceItemIds := ids } :: rest)

/-- C8: when every symbolic pair of every derivation resolves, the pass
rewrites each derivation's `referenceItemIds` with the pairwise resolved
item IDs (order preserved); when some pair has no mapping, the whole pass
fails with `UnresolvedReference` and no partial list is produced; and a
successful `resolvePairs` run resolves exactly pair-for-pair. -/
theorem claim_C8_reference_resolution (m : ReferenceToItemIdMap)
    (ds : List DerivationInfo) :
    ((∀ d ∈ ds, ∃ ids,
        resolvePairs m (d.refsList.zip d.indexList) = some ids) →
      ∃ ds', addItemIdReferences m ds = Except.ok ds' ∧
        List.Forall₂ (fun d d' =>
          d'.uniqBsid = d.uniqBsid ∧ d'.itemIds = d.itemIds ∧
          resolvePairs m (d.refsList.zip d.indexList) =
            some d'.referenceItemIds) ds ds') ∧
    ((∃ d ∈ ds, resolvePairs m (d.refsList.zip d.indexList) = none) →
      addItemIdReferences m ds = Except.error ErrorKind.UnresolvedReference) ∧
    (∀ (pairs : List (Nat × Nat)) (ids : List Nat),
      resolvePairs m pairs = some ids →
      List.Forall₂ (fun p r => resolveReference m p.1 p.2 = some r)
        pairs ids) := by
  refine ⟨?_, ?_, ?_⟩
  · induction ds with
    | nil => intro _; exact ⟨[], rfl, List.Forall₂.nil⟩
    | cons d ds ih =>
        intro hall
        obtain ⟨ids, hids⟩ := hall d (List.mem_cons_self d ds)
        obtain ⟨ds', hds', hforall⟩ :=
          ih (fun x hx => hall x (List.mem_cons_of_mem d hx))
        refine ⟨{ d with referenceItemIds := ids } :: ds', ?_, ?_⟩
        · simp [addItemIdReferences, hids, hds']
        · exact List.Forall₂.cons ⟨rfl, rfl, hids⟩ hforall
  · induction ds with
    | nil =>
        rintro ⟨d, hd, -⟩
        simp at hd
    | cons d ds ih =>
        rintro ⟨d0, hd0, hnone⟩
        rcases List.mem_cons.mp hd0 with rfl | hmem
        · simp [addItemIdReferences, hnone]
        · cases hhead : resolvePairs m (d.refsList.zip d.indexList) with
          | none => simp [addItemIdReferences, hhead]
          | some ids =>
              have htail := ih ⟨d0, hmem, hnone⟩
              simp [addItemIdReferences, hhead, htail]
  · intro pairs
    induction pairs with
    | nil =>
        intro ids h
        obtain rfl : ids = [] := by simpa [resolvePairs] using h.symm
        exact List.Forall₂.nil
    | cons p ps ih =>
        intro ids h
        unfold resolvePairs at h
        cases hr : resolveReference m p.1 p.2 with
        | none => rw [hr] at h; simp at h
        | some i =>
            cases hps : resolvePairs m ps with
            | none => rw [hr, hps] at h; simp at h
            | some is =>
                rw [hr, hps] at h
                obtain rfl : ids = i :: is := by simpa using h.symm
                exact List.Forall₂.cons hr (ih is hps)

/-- A reference index with a single context 1 holding two item IDs. -/
def c8Map : ReferenceToItemIdMap := [(1, [10, 11])]

/-- A derivation referencing the unregistered context 2. -/
def c8BadDerivation : DerivationInfo :=
  { uniqBsid := 5, refsList := [2], indexList := [1] }

theorem claim_C8_witness :
    addItemIdReferences c8Map [c8BadDerivation] =
      Except.error ErrorKind.UnresolvedReference :=
  (claim_C8_reference_resolution c8Map [c8BadDerivation]).2.1
    ⟨c8BadDerivation, by simp, by decide⟩

/-- Modelled from the spec: the MetaBox state the derived-image writer
mutates through `linkIspeProperties`, reduced to the list of issued 'ispe'
property associations (source item ID, target item ID). -/
structure MetaBoxModel where
  ispeLinks : List (Nat × Nat) := []
  deriving DecidableEq, Repr

/-- Modelled from the spec: `linkIspeProperties` requires `fromItems` and
`toItems` to be equal-length parallel lists and associates the 'ispe'
property of `fromItems[i]` to `toItems[i]` for each index; unequal lengths
are a contract violation (`ErrorKind::ArityMismatch`) and nothing is
associated. -/
def linkIspeProperties (metaBox : MetaBoxModel)
    (fromItems toItems : List Nat) : MetaBoxModel × Option ErrorKind :=
  if fromItems.length ≠ toItems.length then
    (metaBox, some .ArityMismatch)
  else
    ({ metaBox with
        ispeLinks := metaBox.ispeLinks ++ fromItems.zip toItems }, none)

/-- C9: with equal-length lists `linkIspeProperties` succeeds and associates
index-for-index (every pair `(fromItems[i], toItems[i])` is added); with
unequal lengths it fails with `ArityMismatch` and the associations are
untouched. -/
theorem claim_C9_linkIspe_arity (metaBox : MetaBoxModel)
    (fromItems toItems : List Nat) :
    (fromItems.length = toItems.length →
      (linkIspeProperties metaBox fromItems toItems).2 = none ∧
      (linkIspeProperties metaBox fromItems toItems).1.ispeLinks =
        metaBox.ispeLinks ++ fromItems.zip toItems ∧
      ∀ i : Nat, ∀ hf : i < fromItems.length, ∀ ht : i < toItems.length,
        (fromItems[i], toItems[i]) ∈
          (linkIspeProperties metaBox fromItems toItems).1.ispeLinks) ∧
    (fromItems.length ≠ toItems.length →
      linkIspeProperties metaBox fromItems toItems =
        (metaBox, some ErrorKind.ArityMismatch)) := by
  constructor
  · intro heq
    have hne : ¬ fromItems.length ≠ toItems.length := by simp [heq]
    refine ⟨by simp [linkIspeProperties, hne], by simp [linkIspeProperties, hne], ?_⟩
    intro i hf ht
    have hz : i < (fromItems.zip toItems).length := by
      rw [List.length_zip]
      omega
    have hmem : (fromItems.zip toItems)[i] ∈ fromItems.zip toItems :=
      List.getElem_mem hz
    rw [List.getElem_zip] at hmem
    simp only [linkIspeProperties, hne, if_false]
    exact List.mem_append_right _ hmem
  · intro hne
    simp [linkIspeProperties, hne]

theorem claim_C9_witness :
    (linkIspeProperties {} [1, 2] [3, 4]).2 = none ∧
    (linkIspeProperties {} [1, 2] [3, 4]).1.ispeLinks = [(1, 3), (2, 4)] ∧
    linkIspeProperties {} [1, 2] [3, 4, 5] =
      ({}, some ErrorKind.ArityMismatch) := by
  obtain ⟨h1, h2, -⟩ :=
    (claim_C9_linkIspe_arity {} [1, 2] [3, 4]).1 (by decide)
  refine ⟨h1, ?_, (claim_C9_linkIspe_arity {} [1, 2] [3, 4, 5]).2 (by decide)⟩
  simpa using h2

/-! ## Round-trip of the codec (C1) -/

/-- Value bounds making one extent representable in the chosen widths: the
offset and length fit their fields, and the index fits its field when the
field is present (version 1/2 and `ITEM_OFFSET`) and is 0 when the field is
absent from the stream. -/
def extentFits (version offsetSize lengthSize indexSize : Nat)
    (cm : ConstructionMethod) (e : ItemLocationExtent) : Prop :=
  e.mExtentOffset < 2 ^ (8 * offsetSize) ∧
  e.mExtentLength < 2 ^ (8 * lengthSize) ∧
  (if 1 ≤ version ∧ cm = ConstructionMethod.ITEM_OFFSET then
    e.mExtentIndex < 2 ^ (8 * indexSize) else e.mExtentIndex = 0)

/-- Value bounds making one entry representable: 16-bit item ID and
data-reference index, base offset fitting its field, extent count below
2^16, all extents representable, and no construction method other than
`FILE_OFFSET` at version 0 (version 0 has no construction-method field). -/
def locationFits (version offsetSize lengthSize baseOffsetSize indexSize :
    Nat) (loc : ItemLocation) : Prop :=
  loc.mItemID < 65536 ∧
  (version = 0 → loc.mConstructionMethod = ConstructionMethod.FILE_OFFSET) ∧
  loc.mDataReferenceIndex < 65536 ∧
  loc.mBaseOffset < 2 ^ (8 * baseOffsetSize) ∧
  loc.mExtentList.length < 65536 ∧
  ∀ e ∈ loc.mExtentList,
    extentFits version offsetSize lengthSize indexSize
      loc.mConstructionMethod e

/-- Value bounds making a whole table representable: all four field widths
in {0,4,8}, the entry count fitting the version-dependent item_count field,
and every entry representable. -/
def boxFits (version : Nat) (box : ItemLocationBox) : Prop :=
  validWidth box.mOffsetSize ∧ validWidth box.mLengthSize ∧
  validWidth box.mBaseOffsetSize ∧ validWidth box.mIndexSize ∧
  box.mItemLocations.length < 2 ^ (if 2 ≤ version then 32 else 16) ∧
  ∀ loc ∈ box.mItemLocations,
    locationFits version box.mOffsetSize box.mLengthSize box.mBaseOffsetSize
      box.mIndexSize loc

theorem readExtent_write (version offsetSize lengthSize iW iR : Nat)
    (cm : ConstructionMethod) (e : ItemLocationExtent) (rest : List Bool)
    (hfits : extentFits version offsetSize lengthSize iW cm e)
    (hir : 1 ≤ version → iR = iW) :
    readExtent version offsetSize lengthSize iR cm
      (ItemLocationExtent.write version offsetSize lengthSize iW cm e ++ rest)
      = some (e, rest) := by
  obtain ⟨ei, eo, el⟩ := e
  obtain ⟨hoff, hlen, hidx⟩ := hfits
  simp only at hoff hlen hidx
  by_cases hg : 1 ≤ version ∧ cm = ConstructionMethod.ITEM_OFFSET
  · rw [if_pos hg] at hidx
    obtain rfl : iR = iW := hir hg.1
    unfold ItemLocationExtent.write readExtent
    simp [hg, List.append_assoc, readBits_append, Nat.mod_eq_of_lt hoff,
      Nat.mod_eq_of_lt hlen, Nat.mod_eq_of_lt hidx]
  · rw [if_neg hg] at hidx
    unfold ItemLocationExtent.write readExtent
    simp [hg, List.append_assoc, readBits_append, Nat.mod_eq_of_lt hoff,
      Nat.mod_eq_of_lt hlen, hidx]

theorem readExtents_write (version offsetSize lengthSize iW iR : Nat)
    (cm : ConstructionMethod) (l : List ItemLocationExtent) (rest : List Bool)
    (hfits : ∀ e ∈ l, extentFits version offsetSize lengthSize iW cm e)
    (hir : 1 ≤ version → iR = iW) :
    readExtents version offsetSize lengthSize iR cm l.length
      ((l.map (ItemLocationExtent.write version offsetSize lengthSize iW
        cm)).flatten ++ rest) = some (l, rest) := by
  induction l with
  | nil => simp [readExtents]
  | cons e t ih =>
      have he := hfits e (List.mem_cons_self e t)
      have ht := fun x hx => hfits x (List.mem_cons_of_mem e hx)
      simp only [List.map_cons, List.flatten_cons, List.length_cons,
        List.append_assoc]
      unfold readExtents
      rw [readExtent_write version offsetSize lengthSize iW iR cm e _ he hir]
      simp [ih ht]

instance (version offsetSize lengthSize indexSize : Nat)
    (cm : ConstructionMethod) (e : ItemLocationExtent) :
    Decidable (extentFits version offsetSize lengthSize indexSize cm e) := by
  unfold extentFits; infer_instance

instance (version offsetSize lengthSize baseOffsetSize indexSize : Nat)
    (loc : ItemLocation) :
    Decidable (locationFits version offsetSize lengthSize baseOffsetSize
      indexSize loc) := by
  unfold locationFits; infer_instance

instance (version : Nat) (box : ItemLocationBox) :
    Decidable (boxFits version box) := by
  unfold boxFits; infer_instance

theorem fromCode_wire (cm : ConstructionMethod) :
    ConstructionMethod.fromCode (cm.toNat % 65536 % 16) = cm := by
  cases cm <;> rfl

theorem readLocation_write (version offsetSize lengthSize baseOffsetSize
    iW iR : Nat) (loc : ItemLocation) (rest : List Bool)
    (hfits : locationFits version offsetSize lengthSize baseOffsetSize iW loc)
    (hir : 1 ≤ version → iR = iW) :
    readLocation version offsetSize lengthSize baseOffsetSize iR
      (ItemLocation.write version offsetSize lengthSize baseOffsetSize iW loc
        ++ rest) = some (loc, rest) := by
  obtain ⟨id, cm, dri, base, exts⟩ := loc
  obtain ⟨hid, hcm0, hdri, hbase, hcnt, hext⟩ := hfits
  simp only at hid hcm0 hdri hbase hcnt hext
  have hW : (65536 : Nat) ≤ 2 ^ (if 2 ≤ version then 32 else 16) := by
    by_cases hv2 : 2 ≤ version <;> simp [hv2]
  have hid1 : id % 2 ^ (if 2 ≤ version then 32 else 16) = id :=
    Nat.mod_eq_of_lt (lt_of_lt_of_le hid hW)
  have hid2 : id % 65536 = id := Nat.mod_eq_of_lt hid
  have hidfull :
      (id % if 2 ≤ version then 4294967296 else 65536) % 65536 = id := by
    by_cases hv2 : 2 ≤ version
    · simp only [hv2, if_true]
      rw [Nat.mod_eq_of_lt (show id < 4294967296 by omega), hid2]
    · simp only [hv2, if_false]
      rw [hid2, hid2]
  have hexts := readExtents_write version offsetSize lengthSize iW iR cm
    exts rest hext hir
  unfold ItemLocation.write readLocation
  by_cases hv1 : 1 ≤ version
  · simp [hv1, List.append_assoc, readBits_append, hid1, hid2, hidfull,
      Nat.mod_eq_of_lt hdri, Nat.mod_eq_of_lt hbase, Nat.mod_eq_of_lt hcnt,
      fromCode_wire, hexts]
  · have hcm : cm = ConstructionMethod.FILE_OFFSET := hcm0 (by omega)
    subst hcm
    simp [hv1, List.append_assoc, readBits_append, hid1, hid2, hidfull,
      Nat.mod_eq_of_lt hdri, Nat.mod_eq_of_lt hbase, Nat.mod_eq_of_lt hcnt,
      hexts]

theorem readLocations_write (version offsetSize lengthSize baseOffsetSize
    iW iR : Nat) (l : List ItemLocation) (rest : List Bool)
    (hfits : ∀ loc ∈ l,
      locationFits version offsetSize lengthSize baseOffsetSize iW loc)
    (hir : 1 ≤ version → iR = iW) :
    readLocations version offsetSize lengthSize baseOffsetSize iR l.length
      ((l.map (ItemLocation.write version offsetSize lengthSize baseOffsetSize
        iW)).flatten ++ rest) = some (l, rest) := by
  induction l with
  | nil => simp [readLocations]
  | cons loc t ih =>
      have hl := hfits loc (List.mem_cons_self loc t)
      have ht := fun x hx => hfits x (List.mem_cons_of_mem loc hx)
      simp only [List.map_cons, List.flatten_cons, List.length_cons,
        List.append_assoc]
      unfold readLocations
      rw [readLocation_write version offsetSize lengthSize baseOffsetSize
        iW iR loc _ hl hir]
      simp [ih ht]

/-- Round trip of the full box codec: parse-of-write recovers the entry
sequence of any representable table, at any version. -/
theorem parseBox_writeBox_roundtrip (version : Nat) (box : ItemLocationBox)
    (hfits : boxFits version box) :
    (ItemLocationBox.parseBox version
      (ItemLocationBox.writeBox version box)).map
      ItemLocationBox.mItemLocations = Except.ok box.mItemLocations := by
  obtain ⟨hO, hL, hB, hI, hcount, hlocs⟩ := hfits
  have h16 : ∀ n, validWidth n → n < 16 := by
    rintro n (rfl | rfl | rfl) <;> norm_num
  have hO16 := h16 _ hO
  have hL16 := h16 _ hL
  have hB16 := h16 _ hB
  have hI' : validWidth (if 1 ≤ version then box.mIndexSize else 0) := by
    by_cases hv1 : 1 ≤ version
    · simpa [hv1] using hI
    · simp [hv1, validWidth]
  have hI16 := h16 _ hI'
  have hir : 1 ≤ version →
      (if 1 ≤ version then box.mIndexSize else 0) = box.mIndexSize :=
    fun h => by simp [h]
  have hrl := readLocations_write version box.mOffsetSize box.mLengthSize
    box.mBaseOffsetSize box.mIndexSize
    (if 1 ≤ version then box.mIndexSize else 0) box.mItemLocations [] hlocs hir
  simp only [List.append_nil] at hrl
  have hcount' : box.mItemLocations.length %
      (if 2 ≤ version then 4294967296 else 65536) =
      box.mItemLocations.length := by
    by_cases hv2 : 2 ≤ version
    · simp only [hv2, if_true]
      rw [Nat.mod_eq_of_lt]
      simpa [hv2] using hcount
    · simp only [hv2, if_false]
      rw [Nat.mod_eq_of_lt]
      simpa [hv2] using hcount
  unfold ItemLocationBox.writeBox ItemLocationBox.parseBox
  simp [List.append_assoc, readBits_append, Nat.mod_eq_of_lt hO16,
    Nat.mod_eq_of_lt hL16, Nat.mod_eq_of_lt hB16, Nat.mod_eq_of_lt hI16,
    hcount', hO, hL, hB, hI', hrl, Except.map]

/-- C1 (amended): serialize-then-parse returns a table with exactly the
original entry sequence — same item IDs, construction methods,
data-reference indexes, base offsets and extents — for all versions 0, 1, 2
and all field widths in {0,4,8}, provided every value is representable in
its (version-dependent) field: item IDs, data-reference indexes and extent
counts fit 16 bits, base offsets and extent offsets/lengths fit the chosen
widths, an extent index fits the index field when that field is present
(version 1/2 with `ITEM_OFFSET`) and is 0 when absent, and at version 0 the
construction method is `FILE_OFFSET` (version 0 has no construction-method
field). -/
theorem claim_C1_roundtrip (version : Nat) (box : ItemLocationBox)
    (_hv : version ≤ 2) (hfits : boxFits version box) :
    (ItemLocationBox.parseBox version
      (ItemLocationBox.writeBox version box)).map
      ItemLocationBox.mItemLocations = Except.ok box.mItemLocations :=
  parseBox_writeBox_roundtrip version box hfits

/-- A version-0 table whose single entry uses construction method
`IDAT_OFFSET`. -/
def v0IdatBox : ItemLocationBox :=
  { mOffsetSize := 4, mLengthSize := 4, mBaseOffsetSize := 4, mIndexSize := 0,
    mItemLocations := [{ mItemID := 1,
                         mConstructionMethod := .IDAT_OFFSET }] }

/-- C1 counterexample: at version 0 the wire format has no
construction-method field, so a table whose entry uses `IDAT_OFFSET` decodes
to an entry with `FILE_OFFSET` — the round trip does not preserve the
construction method for version 0. -/
theorem claim_C1_counterexample :
    (ItemLocationBox.parseBox 0
      (ItemLocationBox.writeBox 0 v0IdatBox)).toOption.map
      (fun b => b.mItemLocations.map ItemLocation.mConstructionMethod) =
      some [ConstructionMethod.FILE_OFFSET] ∧
    v0IdatBox.mItemLocations.map ItemLocation.mConstructionMethod =
      [ConstructionMethod.IDAT_OFFSET] := by
  exact ⟨rfl, rfl⟩

/-- A two-entry table exercising version 1, `ITEM_OFFSET` extents with
indexes, and a `FILE_OFFSET` entry. -/
def c1Box : ItemLocationBox :=
  { mOffsetSize := 4, mLengthSize := 4, mBaseOffsetSize := 8, mIndexSize := 4,
    mItemLocations :=
      [{ mItemID := 1, mConstructionMethod := .ITEM_OFFSET,
         mDataReferenceIndex := 2, mBaseOffset := 77,
         mExtentList := [{ mExtentIndex := 1, mExtentOffset := 10,
                           mExtentLength := 20 },
                         { mExtentIndex := 2, mExtentOffset := 30,
                           mExtentLength := 40 }] },
       { mItemID := 2, mConstructionMethod := .FILE_OFFSET,
         mExtentList := [{ mExtentOffset := 5, mExtentLength := 6 }] }] }

theorem claim_C1_witness :
    (ItemLocationBox.parseBox 1 (ItemLocationBox.writeBox 1 c1Box)).map
      ItemLocationBox.mItemLocations = Except.ok c1Box.mItemLocations :=
  claim_C1_roundtrip 1 c1Box (by norm_num) (by decide)

/-- C6 (amended): in the serialized box the item_count field and each
item_ID field occupy 16 bits at versions 0 and 1 and 32 bits at version 2,
in both `writeBox` and `parseBox`; a version-2 table can therefore carry
item counts that do not fit in 16 bits (any representable entry count
round-trips), but it cannot carry such item IDs: the table stores item IDs
in 16-bit members and `parseBox` stores each decoded item ID reduced modulo
2^16. -/
theorem claim_C6_amended (version : Nat) :
    (∀ box : ItemLocationBox,
      (ItemLocationBox.writeBox version box).length =
        16 + (if 2 ≤ version then 32 else 16) +
        ((box.mItemLocations.map (fun loc =>
          (ItemLocation.write version box.mOffsetSize box.mLengthSize
            box.mBaseOffsetSize box.mIndexSize loc).length)).sum)) ∧
    (∀ offsetSize lengthSize baseOffsetSize indexSize : Nat,
      ∀ loc : ItemLocation,
      (ItemLocation.write version offsetSize lengthSize baseOffsetSize
        indexSize loc).length =
      (if 2 ≤ version then 32 else 16) +
      ((if 1 ≤ version then 16 else 0) + 16 + 8 * baseOffsetSize + 16 +
        loc.mExtentList.length * (8 * offsetSize + 8 * lengthSize) +
        (if 1 ≤ version ∧ loc.mConstructionMethod =
            ConstructionMethod.ITEM_OFFSET then
          loc.mExtentList.length * (8 * indexSize) else 0))) ∧
    (∀ (bs : List Bool) (box : ItemLocationBox),
      ItemLocationBox.parseBox version bs = Except.ok box →
      ∀ loc ∈ box.mItemLocations, loc.mItemID < 65536) ∧
    (∀ box : ItemLocationBox, boxFits version box →
      (ItemLocationBox.parseBox version
        (ItemLocationBox.writeBox version box)).map
        (fun b => b.mItemLocations.length) =
      Except.ok box.mItemLocations.length) := by
  refine ⟨?_, ?_, ?_, ?_⟩
  · intro box
    unfold ItemLocationBox.writeBox
    simp [List.length_flatten, List.map_map, Function.comp_def]
    ring
  · intro offsetSize lengthSize baseOffsetSize indexSize loc
    rw [location_write_length]
    ring
  · intro bs box hok
    unfold ItemLocationBox.parseBox at hok
    split at hok
    · simp at hok
    next o l b i bs2 heq =>
      split at hok
      · split at hok
        · simp at hok
        next locs heq2 =>
          rw [Except.ok.injEq] at hok
          subst hok
          simp only [Option.bind_eq_bind, Option.bind_eq_some,
            Option.some.injEq] at heq2
          obtain ⟨⟨count, bs3⟩, hc, ⟨locs2, bs4⟩, hl, hfin⟩ := heq2
          subst hfin
          exact readLocations_itemID_lt version o l b i count bs3 locs2
            bs4 hl
      · simp at hok
  · intro box hfits
    have h := parseBox_writeBox_roundtrip version box hfits
    cases hp : ItemLocationBox.parseBox version
        (ItemLocationBox.writeBox version box) with
    | error e =>
        rw [hp] at h
        simp [Except.map] at h
    | ok b =>
        rw [hp] at h
        simp only [Except.map, Except.ok.injEq] at h ⊢
        rw [h]

/-- A version-2 table with 70000 entries — an item count that does not fit
in 16 bits. -/
def c6CountBox : ItemLocationBox :=
  { mOffsetSize := 0, mLengthSize := 0, mBaseOffsetSize := 0, mIndexSize := 0,
    mItemLocations := List.replicate 70000 {} }

theorem claim_C6_witness :
    ItemLocation.mItemID { mItemID := 4464 } < 65536 ∧
    (ItemLocationBox.parseBox 2 (ItemLocationBox.writeBox 2 c6CountBox)).map
      (fun b => b.mItemLocations.length) = Except.ok 70000 := by
  constructor
  · exact (claim_C6_amended 2).2.2.1 c6Stream c6ParsedBox rfl
      { mItemID := 4464 } (by simp [c6ParsedBox])
  · have hlist : c6CountBox.mItemLocations =
        List.replicate 70000 ({} : ItemLocation) := rfl
    have hlen : c6CountBox.mItemLocations.length = 70000 := by
      rw [hlist, List.length_replicate]
    have hfits : boxFits 2 c6CountBox := by
      refine ⟨Or.inl rfl, Or.inl rfl, Or.inl rfl, Or.inl rfl, ?_, ?_⟩
      · rw [hlen]
        norm_num
      · intro loc hmem
        rw [hlist] at hmem
        obtain rfl := List.eq_of_mem_replicate hmem
        decide
    have h := (claim_C6_amended 2).2.2.2 c6CountBox hfits
    rw [hlen] at h
    exact h
